import Mathlib

/-!
Verification of the AIDA natural-language-to-SQL repository.

The repository ships a Next.js frontend (`frontend/app/page.tsx`,
`frontend/lib/api.ts`, `frontend/components/QueryInterface.tsx`,
`frontend/components/ResultsDisplay.tsx`, `frontend/components/SchemaDisplay.tsx`,
`frontend/components/FileUpload.tsx`).  Those files are embedded directly.
The backend pipeline (Intent Resolver, Query Validator, SQL Compiler,
Business Rule Set, Schema Catalog) is not part of the sources; the
definitions for it below are modelled from the specification and are
marked as such in their doc comments.
-/

/-! ## Generic helpers on character lists -/

/-- Whitespace test used to model JavaScript `String.prototype.trim`. -/
def isWs (c : Char) : Bool := c = ' ' || c = '\t' || c = '\n' || c = '\r'

/-- Model of JavaScript `question.trim()`: drop trailing whitespace, then
leading whitespace, on the character list of the string. -/
def trimChars (l : List Char) : List Char :=
  ((l.reverse.dropWhile isWs).reverse).dropWhile isWs

/-- Number of start positions of `s` at which the pattern `p` occurs
(as a contiguous character run). -/
def countSub (p : List Char) : List Char → Nat
  | [] => if p.isPrefixOf ([] : List Char) then 1 else 0
  | c :: s => (if p.isPrefixOf (c :: s) then 1 else 0) + countSub p s

/-- Character lists joined with the SQL `AND` separator, as the compiler
emits a `WHERE` clause. -/
def joinAnd : List (List Char) → List Char
  | [] => []
  | x :: rest => x ++ (if rest.isEmpty then [] else " AND ".toList ++ joinAnd rest)

/-! ## Frontend data model (from `frontend/lib/api.ts`) -/

/-- Row returned by the storage layer: named fields with rendered values. -/
abbrev Row := List (String × String)

/-- The outbound per-request result type, field for field the
`QueryResponse` interface of `frontend/lib/api.ts`. -/
structure QueryResponse where
  success : Bool
  question : String
  semanticIr : Option String
  canonicalIr : Option String
  sql : Option String
  parameters : Option (List String)
  results : Option (List Row)
  executionTimeMs : Nat
  error : Option String
deriving DecidableEq

/-- The tuple of everything a `QueryResponse` exposes. -/
def surfaced (r : QueryResponse) :
    Bool × String × Option String × Option String × Option String ×
      Option (List String) × Option (List Row) × Nat × Option String :=
  (r.success, r.question, r.semanticIr, r.canonicalIr, r.sql,
    r.parameters, r.results, r.executionTimeMs, r.error)

/-- One visual card produced by `ResultsDisplay`. -/
inductive DisplaySection where
  | errorCard (message : Option String) (timeMs : Nat)
  | resultsCard (rows : Option (List Row)) (timeMs : Nat)
  | semanticCard (ir : String)
  | canonicalCard (ir : String)
  | sqlCard (sqlText : String) (params : Option (List String))
deriving DecidableEq

/-- Card rendered for an optional artifact, as the conditional JSX blocks of
`ResultsDisplay` do. -/
def optSection (f : String → DisplaySection) : Option String → List DisplaySection
  | none => []
  | some s => [f s]

/-- Model of `ResultsDisplay`: `null` result renders nothing; a failed result
renders the error card with the elapsed time; a successful result renders the
results card (with elapsed time) followed by the semantic, canonical and SQL
cards whenever the corresponding field is present. -/
def render : Option QueryResponse → List DisplaySection
  | none => []
  | some r =>
    if r.success = false then
      [DisplaySection.errorCard r.error r.executionTimeMs]
    else
      [DisplaySection.resultsCard r.results r.executionTimeMs]
        ++ optSection DisplaySection.semanticCard r.semanticIr
        ++ optSection DisplaySection.canonicalCard r.canonicalIr
        ++ (match r.sql with
            | none => []
            | some s => [DisplaySection.sqlCard s r.parameters])

/-- The `QueryResponse` built by the `catch` branch of `handleQuerySubmit` in
`frontend/app/page.tsx` when the transport call throws: success `false`, the
question echoed, `execution_time_ms` hard-coded to `0`, and the error message. -/
def handleQueryFailure (question msg : String) : QueryResponse :=
  { success := false, question := question, semanticIr := none,
    canonicalIr := none, sql := none, parameters := none, results := none,
    executionTimeMs := 0, error := some msg }

/-- The axios client timeout from `frontend/lib/api.ts` (60000 ms). -/
def apiTimeoutMs : Nat := 60000

/-! ## Frontend behaviour (from the components) -/

/-- Model of `handleSubmit` in `QueryInterface.tsx`: returns the argument
passed to `onSubmit`, or `none` when `onSubmit` is not invoked.  The guard is
`question.trim() && !loading`, JavaScript truthiness of a string being
non-emptiness. -/
def handleSubmit (question : List Char) (loading : Bool) : Option (List Char) :=
  if !(trimChars question).isEmpty && !loading then some (trimChars question) else none

/-- Status value of the `FileUpload` component. -/
inductive StatusType where
  | success
  | error
deriving DecidableEq

/-- The `UploadStatus` state of `FileUpload.tsx`. -/
structure UploadStatus where
  type : Option StatusType
  message : String
deriving DecidableEq

/-- Suffix test modelling JavaScript `name.endsWith(p)`. -/
def sEndsWith (s p : String) : Bool := p.toList.isSuffixOf s.toList

/-- The rejection message of `handleFileSelect` in `FileUpload.tsx`. -/
def acceptedFormatsMsg : String := "Please select a SQLite database file (.sqlite or .db)"

/-- Model of `handleFileSelect` in `FileUpload.tsx`.  `uploadResult` stands for
the outcome of the awaited `onUpload` callback; the returned `Bool` records
whether `onUpload` was invoked at all. -/
def handleFileSelect (name : String) (uploadResult : Except String Unit) :
    UploadStatus × Bool :=
  if !(sEndsWith name ".sqlite") && !(sEndsWith name ".db") then
    ({ type := some StatusType.error, message := acceptedFormatsMsg }, false)
  else
    match uploadResult with
    | Except.ok _ =>
        ({ type := some StatusType.success,
           message := "Successfully uploaded " ++ name }, true)
    | Except.error e => ({ type := some StatusType.error, message := e }, true)

/-! ## Backend data model

Modelled from the spec: the backend pipeline (Schema Catalog, Business Rule
Set, Intent Resolver, Query Validator, SQL Compiler) is not among the
repository sources; every definition in this section follows the
specification text (sections 3, 4.1, 4.2, 4.3). -/

/-- Column metadata, field for field the `ColumnInfo` interface of
`frontend/lib/api.ts` (name, declared type, nullable, primary key,
default value). -/
structure Column where
  name : String
  type : String
  nullable : Bool
  primaryKey : Bool
  defaultValue : Option String
deriving DecidableEq

/-- Table metadata, field for field the `TableInfo` interface of
`frontend/lib/api.ts`. -/
structure TableInfo where
  name : String
  columns : List Column
  rowCount : Option Nat
deriving DecidableEq

/-- Modelled from the spec: the Schema Catalog is a read-only mapping from
table name to table metadata. -/
abbrev SchemaCatalog := List (String × TableInfo)

/-- First-match lookup in a string-keyed mapping; absent keys are reported as
`none`, never defaulted. -/
def lookupKey {α : Type} (m : List (String × α)) (k : String) : Option α :=
  (m.find? (fun p => p.1 == k)).map Prod.snd

/-- Whitelisted aggregation functions (spec section 4.1: SUM, COUNT, AVG). -/
inductive Agg where
  | sum
  | count
  | avg
deriving DecidableEq

/-- Whitelisted comparison operators (spec section 4.1). -/
inductive FilterOp where
  | eq
  | ne
  | lt
  | le
  | gt
  | ge
deriving DecidableEq

/-- A typed literal value. -/
inductive Lit where
  | intL (n : Int)
  | strL (s : String)
deriving DecidableEq

/-- Modelled from the spec: a metric-mapping entry of the Business Rule Set
(metric term to table, column and aggregation default). -/
structure MetricRule where
  table : String
  column : String
  defaultAgg : Option Agg
deriving DecidableEq

/-- Modelled from the spec: a default filter declared for a table
(predicate plus rationale). -/
structure DefaultFilter where
  column : String
  op : FilterOp
  value : Lit
  rationale : String
deriving DecidableEq

/-- Modelled from the spec: the Business Rule Set with its four recognized
sections (metric mappings, entity mappings, default filters per table,
time-column mappings per table). -/
structure BusinessRuleSet where
  metricMap : List (String × MetricRule)
  entityMap : List (String × String)
  defaultFilters : List (String × List DefaultFilter)
  timeColumns : List (String × String)
deriving DecidableEq

/-- Default filters declared for a table (empty when the table declares none). -/
def defaultsFor (rules : BusinessRuleSet) (t : String) : List DefaultFilter :=
  (lookupKey rules.defaultFilters t).getD []

/-- A raw comparison filter of a Semantic Intent (field term, operator text,
value), untrusted. -/
structure RawFilter where
  field : String
  op : String
  value : Lit
deriving DecidableEq

/-- Modelled from the spec: a time-range description of a Semantic Intent.
The clock-dependent step turning a relative period such as "this month" into
concrete bounds happens upstream of the resolver; the description is modelled
as carrying the concrete lower (inclusive) and upper (exclusive) bound
literals it denotes. -/
structure TimeRangeDesc where
  lower : Lit
  upper : Lit
deriving DecidableEq

/-- Modelled from the spec: the untrusted Semantic Intent (spec section 3);
every component optional. -/
structure SemanticIntent where
  metric : Option String
  entity : Option String
  aggregation : Option String
  timeRange : Option TimeRangeDesc
  filters : List RawFilter
deriving DecidableEq

/-- A resolved comparison filter of a Canonical Query. -/
structure CompFilter where
  column : String
  op : FilterOp
  value : Lit
deriving DecidableEq

/-- Projection of a Canonical Query: all columns, or one aggregation target. -/
inductive Projection where
  | star
  | agg (fn : Agg) (column : String)
deriving DecidableEq

/-- A resolved time-range filter (designated time column, inclusive lower
bound, exclusive upper bound). -/
structure CTime where
  column : String
  lower : Lit
  upper : Lit
deriving DecidableEq

/-- Modelled from the spec: the Canonical Query (spec section 3). -/
structure CanonicalQuery where
  table : String
  projection : Projection
  filters : List CompFilter
  timeFilter : Option CTime
deriving DecidableEq

/-- Resolution failure taxonomy (spec section 7). -/
inductive ResolutionError where
  | unknownMetric (term : String)
  | unknownEntity (term : String)
  | ambiguousEntity
  | unknownColumn (term : String)
  | unsupportedOperator (term : String)
  | unsupportedAggregation (term : String)
  | noTimeColumn
deriving DecidableEq

/-- Validation failure taxonomy (spec section 7). -/
inductive ValidationError where
  | unknownTable
  | unknownColumn (term : String)
  | typeMismatch
  | unsupportedConstruct
deriving DecidableEq

/-- Operator text parsed against the fixed whitelist (spec section 4.1). -/
def parseOp : String → Option FilterOp
  | "=" => some FilterOp.eq
  | "!=" => some FilterOp.ne
  | "<" => some FilterOp.lt
  | "<=" => some FilterOp.le
  | ">" => some FilterOp.gt
  | ">=" => some FilterOp.ge
  | _ => none

/-- Aggregation keyword parsed against the fixed whitelist (spec section 4.1). -/
def parseAgg : String → Option Agg
  | "SUM" => some Agg.sum
  | "COUNT" => some Agg.count
  | "AVG" => some Agg.avg
  | _ => none

/-- Lower-cased rendering of a string, for case-insensitive column matching. -/
def lowerStr (s : String) : String := String.mk (s.data.map Char.toLower)

/-- Case-insensitive exact match of a field term against the table's columns
(spec section 4.1). -/
def findCol (cols : List Column) (term : String) : Option Column :=
  cols.find? (fun c => lowerStr c.name == lowerStr term)

/-- A default filter as it appears inside the Canonical Query. -/
def defaultToC (d : DefaultFilter) : CompFilter :=
  { column := d.column, op := d.op, value := d.value }

/-- Modelled from the spec: resolution of the raw comparison filters, in
intent order; unmatched field term and non-whitelisted operator fail. -/
def resolveFilters (cols : List Column) : List RawFilter → Except ResolutionError (List CompFilter)
  | [] => Except.ok []
  | r :: rest =>
    match findCol cols r.field with
    | none => Except.error (ResolutionError.unknownColumn r.field)
    | some c =>
      match parseOp r.op with
      | none => Except.error (ResolutionError.unsupportedOperator r.op)
      | some op =>
        match resolveFilters cols rest with
        | Except.error e => Except.error e
        | Except.ok fs => Except.ok ({ column := c.name, op := op, value := r.value } :: fs)

/-- Modelled from the spec: metric term looked up in the metric mapping;
unknown term fails with `unknownMetric`. -/
def resolveMetric (intent : SemanticIntent) (rules : BusinessRuleSet) :
    Except ResolutionError (Option MetricRule) :=
  match intent.metric with
  | none => Except.ok none
  | some m =>
    match lookupKey rules.metricMap m with
    | none => Except.error (ResolutionError.unknownMetric m)
    | some mr => Except.ok (some mr)

/-- Modelled from the spec: entity term looked up in the entity mapping
(unknown term fails with `unknownEntity`); when absent, the table implied by
the metric mapping is used; when both are absent, `ambiguousEntity`. -/
def resolveTable (intent : SemanticIntent) (rules : BusinessRuleSet)
    (metricRule : Option MetricRule) : Except ResolutionError String :=
  match intent.entity with
  | some e =>
    match lookupKey rules.entityMap e with
    | none => Except.error (ResolutionError.unknownEntity e)
    | some t => Except.ok t
  | none =>
    match metricRule with
    | some mr => Except.ok mr.table
    | none => Except.error ResolutionError.ambiguousEntity

/-- Modelled from the spec: the aggregation keyword, if present, must be one
of the whitelist; anything else fails with `unsupportedAggregation`. -/
def parseAggIntent (intent : SemanticIntent) : Except ResolutionError (Option Agg) :=
  match intent.aggregation with
  | none => Except.ok none
  | some a =>
    match parseAgg a with
    | none => Except.error (ResolutionError.unsupportedAggregation a)
    | some g => Except.ok (some g)

/-- Modelled from the spec: the projection is the intent aggregation over the
metric column, else the metric's default aggregation, else a row listing;
with no metric the query is a row-listing query. -/
def resolveProjection (aggKw : Option Agg) (metricRule : Option MetricRule) : Projection :=
  match metricRule with
  | none => Projection.star
  | some mr =>
    match aggKw with
    | some g => Projection.agg g mr.column
    | none =>
      match mr.defaultAgg with
      | some g => Projection.agg g mr.column
      | none => Projection.star

/-- Modelled from the spec: a time-range description resolves through the
table's designated time column; a table with no time column fails with
`noTimeColumn`. -/
def resolveTime (intent : SemanticIntent) (rules : BusinessRuleSet) (table : String) :
    Except ResolutionError (Option CTime) :=
  match intent.timeRange with
  | none => Except.ok none
  | some tr =>
    match lookupKey rules.timeColumns table with
    | none => Except.error ResolutionError.noTimeColumn
    | some col => Except.ok (some { column := col, lower := tr.lower, upper := tr.upper })

/-- Columns of a table as recorded in the Schema Catalog. -/
def colsOf (schema : SchemaCatalog) (t : String) : List Column :=
  ((lookupKey schema t).map TableInfo.columns).getD []

/-- Modelled from the spec: the Intent Resolver (spec section 4.1).  Default
filters for the resolved table come first in rule-set order, then the
intent-provided filters in intent order; the time filter is kept in its own
field and is compiled last. -/
def resolve (intent : SemanticIntent) (rules : BusinessRuleSet) (schema : SchemaCatalog) :
    Except ResolutionError CanonicalQuery :=
  match resolveMetric intent rules with
  | Except.error e => Except.error e
  | Except.ok mr =>
    match resolveTable intent rules mr with
    | Except.error e => Except.error e
    | Except.ok table =>
      match parseAggIntent intent with
      | Except.error e => Except.error e
      | Except.ok aggKw =>
        match resolveFilters (colsOf schema table) intent.filters with
        | Except.error e => Except.error e
        | Except.ok ifs =>
          match resolveTime intent rules table with
          | Except.error e => Except.error e
          | Except.ok tf =>
            Except.ok
              { table := table,
                projection := resolveProjection aggKw mr,
                filters := (defaultsFor rules table).map defaultToC ++ ifs,
                timeFilter := tf }

/-! ## Query Validator (modelled from spec section 4.2) -/

/-- Numeric declared types accepted for `SUM`/`AVG` targets. -/
def numericTypes : List String :=
  ["INTEGER", "INT", "REAL", "FLOAT", "NUMERIC", "DOUBLE", "DECIMAL"]

/-- Whether a declared column type is numeric. -/
def isNumericType (t : String) : Bool := numericTypes.contains t

/-- Exact-name column lookup used by the validator (columns of a Canonical
Query are already resolved). -/
def findColExact (cols : List Column) (name : String) : Option Column :=
  cols.find? (fun c => c.name == name)

/-- Whether a literal is numeric. -/
def litNumeric : Lit → Bool
  | Lit.intL _ => true
  | Lit.strL _ => false

/-- Modelled from the spec: type compatibility of a literal with the declared
type of the column it is compared against. -/
def litCompatible (colType : String) (v : Lit) : Bool :=
  (isNumericType colType && litNumeric v) || (!isNumericType colType && !litNumeric v)

/-- Modelled from the spec: projection check; `SUM`/`AVG` must target a
numeric-typed column that exists on the table. -/
def checkProj (t : TableInfo) : Projection → Option ValidationError
  | Projection.star => none
  | Projection.agg g c =>
    match findColExact t.columns c with
    | none => some (ValidationError.unknownColumn c)
    | some col =>
      match g with
      | Agg.sum => if isNumericType col.type then none else some ValidationError.typeMismatch
      | Agg.avg => if isNumericType col.type then none else some ValidationError.typeMismatch
      | Agg.count => none

/-- Modelled from the spec: every filter column must exist on the table and
its type must be compatible with the literal compared against it. -/
def checkFilters (t : TableInfo) : List CompFilter → Option ValidationError
  | [] => none
  | f :: rest =>
    match findColExact t.columns f.column with
    | none => some (ValidationError.unknownColumn f.column)
    | some col =>
      if litCompatible col.type f.value then checkFilters t rest
      else some ValidationError.typeMismatch

/-- Modelled from the spec: the time column must exist on the table. -/
def checkTime (t : TableInfo) : Option CTime → Option ValidationError
  | none => none
  | some tf =>
    match findColExact t.columns tf.column with
    | none => some (ValidationError.unknownColumn tf.column)
    | some _ => none

/-- Modelled from the spec: the Query Validator (spec section 4.2).  The
single-table, single-aggregation grammar boundary is structural in the
`CanonicalQuery` type itself; the accepted query is returned unchanged. -/
def validate (q : CanonicalQuery) (schema : SchemaCatalog) :
    Except ValidationError CanonicalQuery :=
  match lookupKey schema q.table with
  | none => Except.error ValidationError.unknownTable
  | some t =>
    match checkProj t q.projection with
    | some e => Except.error e
    | none =>
      match checkFilters t q.filters with
      | some e => Except.error e
      | none =>
        match checkTime t q.timeFilter with
        | some e => Except.error e
        | none => Except.ok q

/-! ## SQL Compiler (modelled from spec section 4.3) -/

/-- The one fixed identifier quoting rule: double-quote wrapping. -/
def quoteChars (name : String) : List Char := '"' :: (name.data ++ ['"'])

/-- Emitted text of a whitelisted comparison operator. -/
def opChars : FilterOp → List Char
  | FilterOp.eq => ['=']
  | FilterOp.ne => ['!', '=']
  | FilterOp.lt => ['<']
  | FilterOp.le => ['<', '=']
  | FilterOp.gt => ['>']
  | FilterOp.ge => ['>', '=']

/-- Emitted condition text of one comparison filter: quoted column, operator,
positional placeholder. -/
def condChars (f : CompFilter) : List Char :=
  quoteChars f.column ++ (' ' :: opChars f.op) ++ [' ', '?']

/-- Emitted name of a whitelisted aggregation function. -/
def aggChars : Agg → List Char
  | Agg.sum => ['S', 'U', 'M']
  | Agg.count => ['C', 'O', 'U', 'N', 'T']
  | Agg.avg => ['A', 'V', 'G']

/-- Emitted projection text: `*` for a listing query, `AGG("column")` for an
aggregate query. -/
def projChars : Projection → List Char
  | Projection.star => ['*']
  | Projection.agg g c => aggChars g ++ ('(' :: (quoteChars c ++ [')']))

/-- The `WHERE`-clause pieces of the time-range filter, each paired with the
literal it binds: lower bound (inclusive) first, then upper bound (exclusive). -/
def timePieces : Option CTime → List (List Char × List Lit)
  | none => []
  | some t =>
    [(quoteChars t.column ++ " >= ?".toList, [t.lower]),
     (quoteChars t.column ++ " < ?".toList, [t.upper])]

/-- All `WHERE`-clause pieces in emission order: the comparison filters in the
Canonical Query's filter order, then the time-range bounds. -/
def piecesOf (q : CanonicalQuery) : List (List Char × List Lit) :=
  q.filters.map (fun f => (condChars f, [f.value])) ++ timePieces q.timeFilter

/-- The emitted SQL text, as a character list: fixed clause order
`SELECT projection FROM table [WHERE pieces joined by AND]`. -/
def sqlChars (q : CanonicalQuery) : List Char :=
  "SELECT ".toList ++ projChars q.projection ++ " FROM ".toList ++ quoteChars q.table
    ++ (if (piecesOf q).isEmpty then []
        else " WHERE ".toList ++ joinAnd ((piecesOf q).map Prod.fst))

/-- The compiled statement: parameterized SQL text plus the ordered parameter
list. -/
structure CompiledStatement where
  text : String
  params : List Lit
deriving DecidableEq

/-- Modelled from the spec: the SQL Compiler (spec section 4.3); total and
deterministic, literals only ever become positional placeholders. -/
def compile (q : CanonicalQuery) : CompiledStatement :=
  { text := String.mk (sqlChars q),
    params := (((piecesOf q).map Prod.snd).flatten) }

/-- The parameter sublist contributed by the time-range filter: lower bound
then upper bound. -/
def timeBoundsList : Option CTime → List Lit
  | none => []
  | some t => [t.lower, t.upper]

/-! ## Value erasure (to state that no literal reaches the SQL text) -/

/-- A fixed replacement literal. -/
def eraseLit : Lit := Lit.intL 0

/-- A comparison filter with its literal value erased. -/
def eraseFilter (f : CompFilter) : CompFilter :=
  { column := f.column, op := f.op, value := eraseLit }

/-- A Canonical Query with every literal value (filter values and time
bounds) erased; everything the SQL text may legitimately depend on is kept. -/
def eraseValues (q : CanonicalQuery) : CanonicalQuery :=
  { table := q.table,
    projection := q.projection,
    filters := q.filters.map eraseFilter,
    timeFilter := q.timeFilter.map (fun t =>
      { column := t.column, lower := eraseLit, upper := eraseLit }) }

/-! ## Identifier safety -/

/-- A safe identifier character: lowercase letter, digit or underscore. -/
def safeIdentChar (c : Char) : Bool := c.isLower || c.isDigit || c == '_'

/-- A safe identifier: every character safe. -/
def safeIdent (s : String) : Bool := s.data.all safeIdentChar

/-- Every column name of the table is a safe identifier. -/
def safeTable (t : TableInfo) : Bool := t.columns.all (fun c => safeIdent c.name)

/-- Every table key and every column name of the catalog is a safe
identifier. -/
def safeSchema (schema : SchemaCatalog) : Bool :=
  schema.all (fun p => safeIdent p.1 && safeTable p.2)

/-! ## Outcome construction and execution timeout -/

/-- Rendering of a literal for the outbound parameter list. -/
def serializeLit : Lit → String
  | Lit.intL n => toString n
  | Lit.strL s => s

/-- Debug rendering of a Semantic Intent for the outbound result. -/
def serializeIntent (i : SemanticIntent) : String :=
  "metric=" ++ i.metric.getD "-" ++ " entity=" ++ i.entity.getD "-"
    ++ " agg=" ++ i.aggregation.getD "-"

/-- Debug rendering of a Canonical Query for the outbound result. -/
def serializeCanonical (q : CanonicalQuery) : String :=
  "table=" ++ q.table

/-- Modelled from the spec: the successful per-request outbound result; every
intermediate artifact is surfaced (spec section 6). -/
def mkQueryOutcome (question : String) (intent : SemanticIntent) (q : CanonicalQuery)
    (stmt : CompiledStatement) (rows : List Row) (elapsedMs : Nat) : QueryResponse :=
  { success := true,
    question := question,
    semanticIr := some (serializeIntent intent),
    canonicalIr := some (serializeCanonical q),
    sql := some stmt.text,
    parameters := some (stmt.params.map serializeLit),
    results := some rows,
    executionTimeMs := elapsedMs,
    error := none }

/-- Modelled from the spec: a backend error outcome carries the elapsed time
measured up to the failure point (spec section 7). -/
def mkErrorOutcome (question msg : String) (elapsedMs : Nat) : QueryResponse :=
  { success := false, question := question, semanticIr := none,
    canonicalIr := none, sql := none, parameters := none, results := none,
    executionTimeMs := elapsedMs, error := some msg }

/-- Result of executing a compiled statement against the storage engine. -/
inductive ExecResult where
  | rows (rs : List Row)
  | timeout
  | storageError (msg : String)
deriving DecidableEq

/-- The backend execution timeout: 30 seconds (README: queries are
automatically terminated after 30 seconds). -/
def execTimeoutMs : Nat := 30000

/-- Modelled from the spec: statement execution bounded by the hard timeout;
when the storage engine takes longer than the limit the request fails with
the distinct timeout error and the produced rows are discarded. -/
def runStatement (durationMs : Nat) (produced : List Row) : ExecResult :=
  if execTimeoutMs < durationMs then ExecResult.timeout else ExecResult.rows produced

/-! ## Concrete example inputs (used by witnesses and counterexamples) -/

/-- Example schema: the `orders` table of the spec scenarios. -/
def schemaEx : SchemaCatalog :=
  [("orders",
    { name := "orders",
      columns :=
        [{ name := "amount", type := "INTEGER", nullable := true,
           primaryKey := false, defaultValue := none },
         { name := "status", type := "TEXT", nullable := true,
           primaryKey := false, defaultValue := none },
         { name := "created_at", type := "TEXT", nullable := true,
           primaryKey := false, defaultValue := none }],
      rowCount := none })]

/-- Example rule set: `revenue` maps to `SUM` over `orders.amount`, `orders`
declares the default filter `status = 'completed'` and time column
`created_at`. -/
def rulesEx : BusinessRuleSet :=
  { metricMap := [("revenue", { table := "orders", column := "amount",
                                defaultAgg := some Agg.sum })],
    entityMap := [("orders", "orders")],
    defaultFilters :=
      [("orders", [{ column := "status", op := FilterOp.eq,
                     value := Lit.strL "completed",
                     rationale := "only completed orders" }])],
    timeColumns := [("orders", "created_at")] }

/-- Example intent: metric `revenue` with a time range, nothing else. -/
def intentEx : SemanticIntent :=
  { metric := some "revenue", entity := none, aggregation := none,
    timeRange := some { lower := Lit.strL "2026-10-01",
                        upper := Lit.strL "2026-11-01" },
    filters := [] }

/-- The Canonical Query that `intentEx` resolves to. -/
def cqEx : CanonicalQuery :=
  { table := "orders",
    projection := Projection.agg Agg.sum "amount",
    filters := [{ column := "status", op := FilterOp.eq,
                  value := Lit.strL "completed" }],
    timeFilter := some { column := "created_at",
                         lower := Lit.strL "2026-10-01",
                         upper := Lit.strL "2026-11-01" } }

/-- A schema whose only table name contains a semicolon (legal in SQLite). -/
def schemaSemi : SchemaCatalog :=
  [("t;x", { name := "t;x", columns := [], rowCount := none })]

/-- A listing query over the semicolon-named table. -/
def cqSemi : CanonicalQuery :=
  { table := "t;x", projection := Projection.star, filters := [],
    timeFilter := none }

/-- An empty rule set. -/
def rulesEmpty : BusinessRuleSet :=
  { metricMap := [], entityMap := [], defaultFilters := [], timeColumns := [] }

/-- An intent whose metric term and entity term are both unknown. -/
def intentBoth : SemanticIntent :=
  { metric := some "m", entity := some "e", aggregation := none,
    timeRange := none, filters := [] }

-- Decidable equality for `Except`, needed to evaluate pipeline results on
-- concrete inputs.
deriving instance DecidableEq for Except

/-! ## Helper lemmas: substring counting -/

lemma countSub_eq_zero_of_not_mem (a : Char) (p s : List Char) (hna : a ∉ s) :
    countSub (a :: p) s = 0 := by
  induction s with
  | nil => rfl
  | cons c s ih =>
    have hac : a ≠ c := fun e => hna (e ▸ List.mem_cons_self c s)
    have h1 : (a :: p).isPrefixOf (c :: s) = false := by
      simp [List.isPrefixOf, hac]
    rw [countSub, h1]
    simp only [Bool.false_eq_true, if_false, Nat.zero_add]
    exact ih (fun hm => hna (List.mem_cons_of_mem c hm))

lemma countSub_select_one (body : List Char)
    (h : 'S' ∉ body ∨ ∃ q, 'S' ∉ q ∧ body = 'S' :: 'U' :: 'M' :: '(' :: q) :
    countSub "SELECT".toList ("SELECT ".toList ++ body) = 1 := by
  have e1 : "SELECT".toList = ['S','E','L','E','C','T'] := by decide
  have e2 : "SELECT ".toList = ['S','E','L','E','C','T',' '] := by decide
  rw [e1, e2]
  have step : countSub ['S','E','L','E','C','T']
      (['S','E','L','E','C','T',' '] ++ body)
        = 1 + countSub ['S','E','L','E','C','T'] body := by
    simp [countSub, List.isPrefixOf]
  rw [step]
  rcases h with hno | ⟨q, hq, rfl⟩
  · rw [countSub_eq_zero_of_not_mem _ _ _ hno]
  · have hsum : countSub ['S','E','L','E','C','T'] ('S' :: 'U' :: 'M' :: '(' :: q)
        = countSub ['S','E','L','E','C','T'] q := by
      simp [countSub, List.isPrefixOf]
    rw [hsum, countSub_eq_zero_of_not_mem _ _ _ hq]

/-! ## Helper lemmas: the AND join -/

lemma infix_joinAnd (x : List Char) (ls : List (List Char)) (h : x ∈ ls) :
    x <:+: joinAnd ls := by
  induction ls with
  | nil => cases h
  | cons y rest ih =>
    rcases List.mem_cons.mp h with rfl | hmem
    · exact ⟨[], _, rfl⟩
    · have hx := ih hmem
      have hne : rest.isEmpty = false := by
        cases rest with
        | nil => cases hmem
        | cons a b => rfl
      rw [joinAnd, hne]
      simp only [Bool.false_eq_true, if_false]
      rcases hx with ⟨a, b, hab⟩
      exact ⟨y ++ " AND ".toList ++ a, b, by rw [← hab]; simp⟩

lemma mem_joinAnd (c : Char) (ls : List (List Char)) (h : c ∈ joinAnd ls) :
    (∃ x ∈ ls, c ∈ x) ∨ c ∈ " AND ".toList := by
  induction ls with
  | nil => cases h
  | cons x rest ih =>
    rw [joinAnd] at h
    rcases List.mem_append.mp h with hx | htail
    · exact Or.inl ⟨x, List.mem_cons_self x rest, hx⟩
    · cases hre : rest.isEmpty with
      | true => rw [hre] at htail; cases htail
      | false =>
        rw [hre] at htail
        simp only [Bool.false_eq_true, if_false] at htail
        rcases List.mem_append.mp htail with hsep | hjn
        · exact Or.inr hsep
        · rcases ih hjn with ⟨y, hy, hcy⟩ | hsep
          · exact Or.inl ⟨y, List.mem_cons_of_mem x hy, hcy⟩
          · exact Or.inr hsep

lemma count_joinAnd (c : Char) (hsep : List.count c " AND ".toList = 0)
    (ls : List (List Char)) :
    List.count c (joinAnd ls) = (ls.map (List.count c)).sum := by
  induction ls with
  | nil => rfl
  | cons x rest ih =>
    rw [joinAnd]
    cases rest with
    | nil => simp [List.count_append]
    | cons y t =>
      simp only [List.isEmpty_cons, Bool.false_eq_true, if_false]
      rw [List.count_append, List.count_append, hsep, ih]
      simp [Nat.add_comm, Nat.add_assoc, Nat.add_left_comm]

lemma sum_counts_one (c : Char) (l : List (List Char))
    (h : ∀ x ∈ l, List.count c x = 1) : (l.map (List.count c)).sum = l.length := by
  induction l with
  | nil => rfl
  | cons x rest ih =>
    simp only [List.map_cons, List.sum_cons, h x (List.mem_cons_self x rest),
      List.length_cons]
    rw [ih (fun y hy => h y (List.mem_cons_of_mem x hy))]
    omega

lemma length_flatten_ones {α : Type} (l : List (List α))
    (h : ∀ x ∈ l, x.length = 1) : l.flatten.length = l.length := by
  induction l with
  | nil => rfl
  | cons x rest ih =>
    rw [List.flatten_cons, List.length_append, h x (List.mem_cons_self x rest),
      List.length_cons, ih (fun y hy => h y (List.mem_cons_of_mem x hy))]
    omega

lemma flatten_map_singleton {α β : Type} (f : α → β) (l : List α) :
    (l.map (fun a => [f a])).flatten = l.map f := by
  induction l with
  | nil => rfl
  | cons x rest ih => simp [ih]

/-! ## Helper lemmas: lookups and safety -/

lemma lookupKey_eq_some {α : Type} (m : List (String × α)) (k : String) (v : α)
    (h : lookupKey m k = some v) : ∃ pr, pr ∈ m ∧ pr.1 = k ∧ pr.2 = v := by
  unfold lookupKey at h
  cases hf : m.find? (fun p => p.1 == k) with
  | none => rw [hf] at h; cases h
  | some pr =>
    rw [hf] at h
    have h1 := List.mem_of_find?_eq_some hf
    have h2 := List.find?_some hf
    simp only [beq_iff_eq] at h2
    simp only [Option.map_some', Option.some_inj] at h
    exact ⟨pr, h1, h2, h⟩

lemma findColExact_eq_some (cols : List Column) (n : String) (col : Column)
    (h : findColExact cols n = some col) : col ∈ cols ∧ col.name = n := by
  unfold findColExact at h
  refine ⟨List.mem_of_find?_eq_some h, ?_⟩
  have := List.find?_some h
  simpa using this

lemma safeIdent_not_mem (s : String) (hs : safeIdent s = true) (c : Char)
    (hc : safeIdentChar c = false) : c ∉ s.data := by
  intro hm
  have := List.all_eq_true.mp hs c hm
  rw [hc] at this
  cases this

lemma safeSchema_lookup (s : SchemaCatalog) (hs : safeSchema s = true)
    (k : String) (t : TableInfo) (h : lookupKey s k = some t) :
    safeIdent k = true ∧ safeTable t = true := by
  rcases lookupKey_eq_some _ _ _ h with ⟨pr, hmem, hk, hv⟩
  have := List.all_eq_true.mp hs pr hmem
  rcases Bool.and_eq_true_iff.mp this with ⟨h1, h2⟩
  exact ⟨hk ▸ h1, hv ▸ h2⟩

lemma safeTable_col (t : TableInfo) (ht : safeTable t = true)
    (col : Column) (hc : col ∈ t.columns) : safeIdent col.name = true :=
  List.all_eq_true.mp ht col hc

/-! ## Helper lemmas: inversion of the validator -/

lemma validate_ok_inv (q : CanonicalQuery) (s : SchemaCatalog) (q' : CanonicalQuery)
    (h : validate q s = Except.ok q') :
    q' = q ∧ ∃ t, lookupKey s q.table = some t ∧ checkProj t q.projection = none ∧
      checkFilters t q.filters = none ∧ checkTime t q.timeFilter = none := by
  unfold validate at h
  split at h
  · cases h
  · rename_i t ht
    split at h
    · cases h
    · rename_i h1
      split at h
      · cases h
      · rename_i h2
        split at h
        · cases h
        · rename_i h3
          cases h
          exact ⟨rfl, t, ht, h1, h2, h3⟩

lemma checkFilters_none_mem (t : TableInfo) (fs : List CompFilter)
    (h : checkFilters t fs = none) :
    ∀ f ∈ fs, ∃ col, findColExact t.columns f.column = some col ∧
      litCompatible col.type f.value = true := by
  induction fs with
  | nil => intro f hf; cases hf
  | cons g rest ih =>
    intro f hf
    unfold checkFilters at h
    split at h
    · cases h
    · rename_i col hcol
      split at h
      · rename_i hcompat
        rcases List.mem_cons.mp hf with rfl | hmem
        · exact ⟨col, hcol, hcompat⟩
        · exact ih h f hmem
      · cases h

lemma checkProj_none_inv (t : TableInfo) (p : Projection) (h : checkProj t p = none) :
    p = Projection.star ∨ ∃ g c col, p = Projection.agg g c ∧
      findColExact t.columns c = some col := by
  unfold checkProj at h
  split at h
  · exact Or.inl rfl
  · rename_i g c
    split at h
    · cases h
    · rename_i col hcol
      exact Or.inr ⟨g, c, col, rfl, hcol⟩

lemma checkTime_none_inv (t : TableInfo) (tf : Option CTime) (h : checkTime t tf = none) :
    tf = none ∨ ∃ ct col, tf = some ct ∧ findColExact t.columns ct.column = some col := by
  unfold checkTime at h
  split at h
  · exact Or.inl rfl
  · rename_i ct
    split at h
    · cases h
    · rename_i col hcol
      exact Or.inr ⟨ct, col, rfl, hcol⟩

/-! ## Helper lemmas: inversion of the resolver -/

lemma resolve_ok_inv (i : SemanticIntent) (r : BusinessRuleSet) (s : SchemaCatalog)
    (q : CanonicalQuery) (h : resolve i r s = Except.ok q) :
    ∃ mr tb aggKw ifs tf,
      resolveMetric i r = Except.ok mr ∧
      resolveTable i r mr = Except.ok tb ∧
      parseAggIntent i = Except.ok aggKw ∧
      resolveFilters (colsOf s tb) i.filters = Except.ok ifs ∧
      resolveTime i r tb = Except.ok tf ∧
      q = { table := tb, projection := resolveProjection aggKw mr,
            filters := (defaultsFor r tb).map defaultToC ++ ifs,
            timeFilter := tf } := by
  unfold resolve at h
  split at h
  · cases h
  · rename_i mr hmr
    split at h
    · cases h
    · rename_i tb htb
      split at h
      · cases h
      · rename_i aggKw hagg
        split at h
        · cases h
        · rename_i ifs hifs
          split at h
          · cases h
          · rename_i tf htf
            cases h
            exact ⟨mr, tb, aggKw, ifs, tf, hmr, htb, hagg, hifs, htf, rfl⟩

lemma resolveFilters_ok_rel (cols : List Column) (rs : List RawFilter)
    (fs : List CompFilter) (h : resolveFilters cols rs = Except.ok fs) :
    List.Forall₂ (fun (raw : RawFilter) (c : CompFilter) =>
      c.value = raw.value ∧ parseOp raw.op = some c.op ∧
      ∃ col, findCol cols raw.field = some col ∧ c.column = col.name) rs fs := by
  induction rs generalizing fs with
  | nil =>
    unfold resolveFilters at h
    cases h
    exact List.Forall₂.nil
  | cons raw rest ih =>
    unfold resolveFilters at h
    split at h
    · cases h
    · rename_i col hcol
      split at h
      · cases h
      · rename_i op hop
        split at h
        · cases h
        · rename_i fs' hfs
          cases h
          exact List.Forall₂.cons ⟨rfl, hop, col, hcol, rfl⟩ (ih fs' hfs)

/-! ## Helper lemmas: the compiler and value erasure -/

lemma condChars_erase (f : CompFilter) : condChars (eraseFilter f) = condChars f := rfl

lemma piecesOf_erase_fst (q : CanonicalQuery) :
    (piecesOf (eraseValues q)).map Prod.fst = (piecesOf q).map Prod.fst := by
  have hf : (((eraseValues q).filters.map (fun f => (condChars f, [f.value]))).map Prod.fst)
      = ((q.filters.map (fun f => (condChars f, [f.value]))).map Prod.fst) := by
    have he : (eraseValues q).filters = q.filters.map eraseFilter := rfl
    rw [he]
    simp only [List.map_map]
    apply List.map_congr_left
    intro f hmem
    rfl
  have ht : (timePieces (eraseValues q).timeFilter).map Prod.fst
      = (timePieces q.timeFilter).map Prod.fst := by
    have he : (eraseValues q).timeFilter = q.timeFilter.map (fun t =>
        ({ column := t.column, lower := eraseLit, upper := eraseLit } : CTime)) := rfl
    rw [he]
    cases q.timeFilter with
    | none => rfl
    | some t => rfl
  unfold piecesOf
  rw [List.map_append, List.map_append, hf, ht]

lemma piecesOf_erase_isEmpty (q : CanonicalQuery) :
    (piecesOf (eraseValues q)).isEmpty = (piecesOf q).isEmpty := by
  have h1 := piecesOf_erase_fst q
  have h2 : (piecesOf (eraseValues q)).length = (piecesOf q).length := by
    have := congrArg List.length h1
    simpa using this
  cases he : piecesOf (eraseValues q) with
  | nil =>
    cases hp : piecesOf q with
    | nil => rfl
    | cons a b => rw [he, hp] at h2; cases h2
  | cons a b =>
    cases hp : piecesOf q with
    | nil => rw [he, hp] at h2; cases h2
    | cons c d => rfl

lemma sqlChars_erase (q : CanonicalQuery) : sqlChars (eraseValues q) = sqlChars q := by
  unfold sqlChars
  rw [show (eraseValues q).projection = q.projection from rfl,
    show (eraseValues q).table = q.table from rfl,
    piecesOf_erase_fst q, piecesOf_erase_isEmpty q]

lemma compile_params_eq (q : CanonicalQuery) :
    (compile q).params = q.filters.map CompFilter.value ++ timeBoundsList q.timeFilter := by
  have hf : ((q.filters.map (fun f => (condChars f, [f.value]))).map Prod.snd).flatten
      = q.filters.map CompFilter.value := by
    have hm : (q.filters.map (fun f => (condChars f, [f.value]))).map Prod.snd
        = q.filters.map (fun f => [f.value]) := by
      rw [List.map_map]
      rfl
    rw [hm]
    exact flatten_map_singleton CompFilter.value q.filters
  have ht : ((timePieces q.timeFilter).map Prod.snd).flatten
      = timeBoundsList q.timeFilter := by
    cases q.timeFilter with
    | none => rfl
    | some t => rfl
  show (((q.filters.map (fun f => (condChars f, [f.value]))
      ++ timePieces q.timeFilter).map Prod.snd).flatten) = _
  rw [List.map_append, List.flatten_append, hf, ht]

/-! ## Helper lemmas: characters of the emitted text -/

lemma not_mem_quoteChars (c : Char) (n : String) (hsafe : safeIdent n = true)
    (hc : safeIdentChar c = false) (hq : c ≠ '"') : c ∉ quoteChars n := by
  intro hm
  unfold quoteChars at hm
  rcases List.mem_cons.mp hm with h | h
  · exact hq h
  · rcases List.mem_append.mp h with h2 | h2
    · exact safeIdent_not_mem n hsafe c hc h2
    · exact hq (List.mem_singleton.mp h2)

lemma not_mem_opChars (c : Char) (op : FilterOp) (hcs : c = ';' ∨ c = 'S') :
    c ∉ opChars op := by
  rcases hcs with rfl | rfl <;> cases op <;> decide

lemma not_mem_condChars (c : Char) (f : CompFilter) (hsafe : safeIdent f.column = true)
    (hcs : c = ';' ∨ c = 'S') : c ∉ condChars f := by
  have hc : safeIdentChar c = false := by rcases hcs with rfl | rfl <;> decide
  have hq : c ≠ '"' := by rcases hcs with rfl | rfl <;> decide
  intro hm
  unfold condChars at hm
  rcases List.mem_append.mp hm with h | h
  · rcases List.mem_append.mp h with h2 | h2
    · exact not_mem_quoteChars c f.column hsafe hc hq h2
    · rcases List.mem_cons.mp h2 with h3 | h3
      · rcases hcs with rfl | rfl <;> exact absurd h3 (by decide)
      · exact not_mem_opChars c f.op hcs h3
  · rcases hcs with rfl | rfl <;> exact absurd h (by decide)

lemma not_mem_pieces_fst (c : Char) (q : CanonicalQuery)
    (hfs : ∀ f ∈ q.filters, safeIdent f.column = true)
    (htc : ∀ ct, q.timeFilter = some ct → safeIdent ct.column = true)
    (hcs : c = ';' ∨ c = 'S') :
    ∀ x ∈ (piecesOf q).map Prod.fst, c ∉ x := by
  have hc : safeIdentChar c = false := by rcases hcs with rfl | rfl <;> decide
  have hq : c ≠ '"' := by rcases hcs with rfl | rfl <;> decide
  intro x hx
  rcases List.mem_map.mp hx with ⟨pc, hpc, rfl⟩
  unfold piecesOf at hpc
  rcases List.mem_append.mp hpc with h | h
  · rcases List.mem_map.mp h with ⟨f, hf, rfl⟩
    exact not_mem_condChars c f (hfs f hf) hcs
  · cases htf : q.timeFilter with
    | none => rw [htf] at h; cases h
    | some ct =>
      rw [htf] at h
      have hsafe := htc ct htf
      unfold timePieces at h
      rcases List.mem_cons.mp h with rfl | h2
      · intro hm
        rcases List.mem_append.mp hm with h3 | h3
        · exact not_mem_quoteChars c ct.column hsafe hc hq h3
        · rcases hcs with rfl | rfl <;> exact absurd h3 (by decide)
      · have h4 := List.mem_singleton.mp h2
        rw [h4]
        intro hm
        rcases List.mem_append.mp hm with h3 | h3
        · exact not_mem_quoteChars c ct.column hsafe hc hq h3
        · rcases hcs with rfl | rfl <;> exact absurd h3 (by decide)

lemma not_mem_joinAnd_pieces (c : Char) (q : CanonicalQuery)
    (hfs : ∀ f ∈ q.filters, safeIdent f.column = true)
    (htc : ∀ ct, q.timeFilter = some ct → safeIdent ct.column = true)
    (hcs : c = ';' ∨ c = 'S') :
    c ∉ joinAnd ((piecesOf q).map Prod.fst) := by
  intro hm
  rcases mem_joinAnd c _ hm with ⟨x, hx, hcx⟩ | hsep
  · exact not_mem_pieces_fst c q hfs htc hcs x hx hcx
  · rcases hcs with rfl | rfl <;> exact absurd hsep (by decide)

lemma not_mem_tailPart (c : Char) (q : CanonicalQuery)
    (htab : safeIdent q.table = true)
    (hfs : ∀ f ∈ q.filters, safeIdent f.column = true)
    (htc : ∀ ct, q.timeFilter = some ct → safeIdent ct.column = true)
    (hcs : c = ';' ∨ c = 'S') :
    c ∉ " FROM ".toList ++ (quoteChars q.table
      ++ (if (piecesOf q).isEmpty then []
          else " WHERE ".toList ++ joinAnd ((piecesOf q).map Prod.fst))) := by
  have hc : safeIdentChar c = false := by rcases hcs with rfl | rfl <;> decide
  have hq : c ≠ '"' := by rcases hcs with rfl | rfl <;> decide
  intro hm
  rcases List.mem_append.mp hm with h | h
  · rcases hcs with rfl | rfl <;> exact absurd h (by decide)
  · rcases List.mem_append.mp h with h2 | h2
    · exact not_mem_quoteChars c q.table htab hc hq h2
    · cases hpe : (piecesOf q).isEmpty with
      | true => rw [hpe] at h2; simp at h2
      | false =>
        rw [hpe] at h2
        simp only [Bool.false_eq_true, if_false] at h2
        rcases List.mem_append.mp h2 with h3 | h3
        · rcases hcs with rfl | rfl <;> exact absurd h3 (by decide)
        · exact not_mem_joinAnd_pieces c q hfs htc hcs h3

lemma sqlChars_eq (q : CanonicalQuery) :
    sqlChars q = "SELECT ".toList ++ (projChars q.projection
      ++ (" FROM ".toList ++ (quoteChars q.table
        ++ (if (piecesOf q).isEmpty then []
            else " WHERE ".toList ++ joinAnd ((piecesOf q).map Prod.fst))))) := by
  unfold sqlChars
  simp [List.append_assoc]

lemma not_mem_projChars (c : Char) (p : Projection)
    (hsafe : ∀ g cl, p = Projection.agg g cl → safeIdent cl = true)
    (hcs : c = ';' ∨ c = '?') : c ∉ projChars p := by
  have hc : safeIdentChar c = false := by rcases hcs with rfl | rfl <;> decide
  have hq : c ≠ '"' := by rcases hcs with rfl | rfl <;> decide
  cases p with
  | star => rcases hcs with rfl | rfl <;> decide
  | agg g cl =>
    have hsc := hsafe g cl rfl
    intro hm
    unfold projChars at hm
    rcases List.mem_append.mp hm with h | h
    · rcases hcs with rfl | rfl <;> (cases g <;> exact absurd h (by decide))
    · rcases List.mem_cons.mp h with h2 | h2
      · rcases hcs with rfl | rfl <;> exact absurd h2 (by decide)
      · rcases List.mem_append.mp h2 with h3 | h3
        · exact not_mem_quoteChars c cl hsc hc hq h3
        · rcases hcs with rfl | rfl <;> exact absurd h3 (by decide)

lemma count_qm_quote (n : String) (hsafe : safeIdent n = true) :
    List.count '?' (quoteChars n) = 0 :=
  List.count_eq_zero.mpr (not_mem_quoteChars '?' n hsafe (by decide) (by decide))

lemma qm_not_mem_opChars (op : FilterOp) : '?' ∉ opChars op := by
  cases op <;> decide

lemma count_qm_condChars (f : CompFilter) (hsafe : safeIdent f.column = true) :
    List.count '?' (condChars f) = 1 := by
  unfold condChars
  rw [List.count_append, List.count_append, count_qm_quote f.column hsafe]
  have h2 : List.count '?' (' ' :: opChars f.op) = 0 := by
    apply List.count_eq_zero.mpr
    intro hm
    rcases List.mem_cons.mp hm with h | h
    · exact absurd h (by decide)
    · exact absurd h (qm_not_mem_opChars f.op)
  rw [h2]
  decide

lemma count_qm_pieces (q : CanonicalQuery)
    (hfs : ∀ f ∈ q.filters, safeIdent f.column = true)
    (htc : ∀ ct, q.timeFilter = some ct → safeIdent ct.column = true) :
    ∀ x ∈ (piecesOf q).map Prod.fst, List.count '?' x = 1 := by
  intro x hx
  rcases List.mem_map.mp hx with ⟨pc, hpc, rfl⟩
  unfold piecesOf at hpc
  rcases List.mem_append.mp hpc with h | h
  · rcases List.mem_map.mp h with ⟨f, hf, rfl⟩
    exact count_qm_condChars f (hfs f hf)
  · cases htf : q.timeFilter with
    | none => rw [htf] at h; cases h
    | some ct =>
      rw [htf] at h
      have hsafe := htc ct htf
      unfold timePieces at h
      rcases List.mem_cons.mp h with rfl | h2
      · show List.count '?' (quoteChars ct.column ++ " >= ?".toList) = 1
        rw [List.count_append, count_qm_quote ct.column hsafe]
        decide
      · rw [List.mem_singleton.mp h2]
        show List.count '?' (quoteChars ct.column ++ " < ?".toList) = 1
        rw [List.count_append, count_qm_quote ct.column hsafe]
        decide

lemma pieces_snd_len (q : CanonicalQuery) :
    ∀ pc ∈ piecesOf q, pc.2.length = 1 := by
  intro pc hpc
  unfold piecesOf at hpc
  rcases List.mem_append.mp hpc with h | h
  · rcases List.mem_map.mp h with ⟨f, hf, rfl⟩
    rfl
  · cases htf : q.timeFilter with
    | none => rw [htf] at h; cases h
    | some ct =>
      rw [htf] at h
      unfold timePieces at h
      rcases List.mem_cons.mp h with rfl | h2
      · rfl
      · rw [List.mem_singleton.mp h2]
        rfl

lemma compile_params_length (q : CanonicalQuery) :
    (compile q).params.length = (piecesOf q).length := by
  have h1 : ∀ x ∈ (piecesOf q).map Prod.snd, x.length = 1 := by
    intro x hx
    rcases List.mem_map.mp hx with ⟨pc, hpc, rfl⟩
    exact pieces_snd_len q pc hpc
  show (((piecesOf q).map Prod.snd).flatten).length = _
  rw [length_flatten_ones _ h1, List.length_map]

lemma count_qm_sqlChars (q : CanonicalQuery)
    (htab : safeIdent q.table = true)
    (hfs : ∀ f ∈ q.filters, safeIdent f.column = true)
    (htc : ∀ ct, q.timeFilter = some ct → safeIdent ct.column = true)
    (hproj : ∀ g c, q.projection = Projection.agg g c → safeIdent c = true) :
    List.count '?' (sqlChars q) = (piecesOf q).length := by
  rw [sqlChars_eq]
  simp only [List.count_append]
  have h1 : List.count '?' ("SELECT ".toList) = 0 := by decide
  have h2 := List.count_eq_zero.mpr (not_mem_projChars '?' q.projection hproj (Or.inr rfl))
  have h3 : List.count '?' (" FROM ".toList) = 0 := by decide
  have h4 : List.count '?' (quoteChars q.table) = 0 := count_qm_quote q.table htab
  rw [h1, h2, h3, h4]
  cases hpe : (piecesOf q).isEmpty with
  | true =>
    simp only [if_true]
    rw [List.isEmpty_iff.mp hpe]
    decide
  | false =>
    simp only [Bool.false_eq_true, if_false]
    rw [List.count_append]
    have h5 : List.count '?' (" WHERE ".toList) = 0 := by decide
    rw [h5, count_joinAnd '?' (by decide), sum_counts_one '?' _ (count_qm_pieces q hfs htc),
      List.length_map]
    omega

lemma semi_not_mem_sqlChars (q : CanonicalQuery)
    (htab : safeIdent q.table = true)
    (hfs : ∀ f ∈ q.filters, safeIdent f.column = true)
    (htc : ∀ ct, q.timeFilter = some ct → safeIdent ct.column = true)
    (hproj : ∀ g c, q.projection = Projection.agg g c → safeIdent c = true) :
    ';' ∉ sqlChars q := by
  rw [sqlChars_eq]
  intro hm
  rcases List.mem_append.mp hm with h | h
  · exact absurd h (by decide)
  · rcases List.mem_append.mp h with h2 | h2
    · exact not_mem_projChars ';' q.projection hproj (Or.inl rfl) h2
    · exact not_mem_tailPart ';' q htab hfs htc (Or.inl rfl) h2

lemma countSub_select_sqlChars (q : CanonicalQuery)
    (htab : safeIdent q.table = true)
    (hfs : ∀ f ∈ q.filters, safeIdent f.column = true)
    (htc : ∀ ct, q.timeFilter = some ct → safeIdent ct.column = true)
    (hproj : ∀ g c, q.projection = Projection.agg g c → safeIdent c = true) :
    countSub "SELECT".toList (sqlChars q) = 1 := by
  rw [sqlChars_eq]
  have htail := not_mem_tailPart 'S' q htab hfs htc (Or.inr rfl)
  apply countSub_select_one
  cases hpj : q.projection with
  | star =>
    left
    intro hm
    rcases List.mem_append.mp hm with h | h
    · exact absurd h (by decide)
    · exact htail h
  | agg g c =>
    have hsafec := hproj g c hpj
    cases g with
    | count =>
      left
      intro hm
      rcases List.mem_append.mp hm with h | h
      · unfold projChars at h
        rcases List.mem_append.mp h with h2 | h2
        · exact absurd h2 (by decide)
        · rcases List.mem_cons.mp h2 with h3 | h3
          · exact absurd h3 (by decide)
          · rcases List.mem_append.mp h3 with h4 | h4
            · exact not_mem_quoteChars 'S' c hsafec (by decide) (by decide) h4
            · exact absurd h4 (by decide)
      · exact htail h
    | avg =>
      left
      intro hm
      rcases List.mem_append.mp hm with h | h
      · unfold projChars at h
        rcases List.mem_append.mp h with h2 | h2
        · exact absurd h2 (by decide)
        · rcases List.mem_cons.mp h2 with h3 | h3
          · exact absurd h3 (by decide)
          · rcases List.mem_append.mp h3 with h4 | h4
            · exact not_mem_quoteChars 'S' c hsafec (by decide) (by decide) h4
            · exact absurd h4 (by decide)
      · exact htail h
    | sum =>
      right
      refine ⟨(quoteChars c ++ [')']) ++ (" FROM ".toList ++ (quoteChars q.table
        ++ (if (piecesOf q).isEmpty then []
            else " WHERE ".toList ++ joinAnd ((piecesOf q).map Prod.fst)))), ?_, ?_⟩
      · intro hm
        rcases List.mem_append.mp hm with h | h
        · rcases List.mem_append.mp h with h2 | h2
          · exact not_mem_quoteChars 'S' c hsafec (by decide) (by decide) h2
          · exact absurd h2 (by decide)
        · exact htail h
      · show projChars (Projection.agg Agg.sum c) ++ _ = _
        unfold projChars aggChars
        simp [List.append_assoc]

lemma validate_safe_idents (q : CanonicalQuery) (s : SchemaCatalog)
    (hs : safeSchema s = true) (q' : CanonicalQuery)
    (hv : validate q s = Except.ok q') :
    safeIdent q.table = true ∧
    (∀ f ∈ q.filters, safeIdent f.column = true) ∧
    (∀ ct, q.timeFilter = some ct → safeIdent ct.column = true) ∧
    (∀ g c, q.projection = Projection.agg g c → safeIdent c = true) := by
  rcases validate_ok_inv q s q' hv with ⟨hq, t, ht, hp, hf, htm⟩
  rcases safeSchema_lookup s hs q.table t ht with ⟨htab, htcols⟩
  refine ⟨htab, ?_, ?_, ?_⟩
  · intro f hfm
    rcases checkFilters_none_mem t q.filters hf f hfm with ⟨col, hcol, hcpt⟩
    rcases findColExact_eq_some _ _ _ hcol with ⟨hmem, hname⟩
    have hsafe := safeTable_col t htcols col hmem
    rw [hname] at hsafe
    exact hsafe
  · intro ct hct
    rcases checkTime_none_inv t q.timeFilter htm with hnone | ⟨ct', col, hct', hcol⟩
    · rw [hct] at hnone; cases hnone
    · rw [hct] at hct'
      cases hct'
      rcases findColExact_eq_some _ _ _ hcol with ⟨hmem, hname⟩
      have hsafe := safeTable_col t htcols col hmem
      rw [hname] at hsafe
      exact hsafe
  · intro g c hpc
    rcases checkProj_none_inv t q.projection hp with hstar | ⟨g', c', col, hagg, hcol⟩
    · rw [hpc] at hstar; cases hstar
    · rw [hpc] at hagg
      cases hagg
      rcases findColExact_eq_some _ _ _ hcol with ⟨hmem, hname⟩
      have hsafe := safeTable_col t htcols col hmem
      rw [hname] at hsafe
      exact hsafe

/-! ## Claim theorems -/

/-- Claim C10: the query form invokes `onSubmit` exactly when the entered
question is non-empty after trimming and no query is loading, and the argument
passed to `onSubmit` is the whitespace-trimmed question: never empty, with no
leading and no trailing whitespace. -/
theorem query_submit_trimmed (q : List Char) (l : Bool) :
    ((handleSubmit q l).isSome ↔ ((trimChars q).isEmpty = false ∧ l = false)) ∧
    (∀ s, handleSubmit q l = some s →
      s = trimChars q ∧ s ≠ [] ∧
      (∀ c, s.head? = some c → isWs c = false) ∧
      (∀ c, s.getLast? = some c → isWs c = false)) := by
  constructor
  · unfold handleSubmit
    cases hie : (trimChars q).isEmpty with
    | true => cases l <;> simp [hie]
    | false => cases l <;> simp [hie]
  · intro s hs
    unfold handleSubmit at hs
    split at hs
    · rename_i hcnd
      rcases Bool.and_eq_true_iff.mp hcnd with ⟨ha, hb⟩
      have hxe : (trimChars q).isEmpty = false := by
        cases hx : (trimChars q).isEmpty with
        | true => rw [hx] at ha; cases ha
        | false => rfl
      have hseq : s = trimChars q := by
        injection hs with h
        exact h.symm
      have hnonnil : trimChars q ≠ [] := by
        intro hnil
        rw [hnil] at hxe
        cases hxe
      refine ⟨hseq, ?_, ?_, ?_⟩
      · rw [hseq]; exact hnonnil
      · intro c hc
        rw [hseq] at hc
        unfold trimChars at hc
        have hh := List.head?_dropWhile_not isWs ((q.reverse.dropWhile isWs).reverse)
        rw [hc] at hh
        exact hh
      · intro c hc
        rw [hseq] at hc
        have hsuffix : trimChars q <:+ (q.reverse.dropWhile isWs).reverse :=
          List.dropWhile_suffix isWs
        obtain ⟨pre, hpre⟩ := hsuffix
        have hlast : (trimChars q).getLast?
            = ((q.reverse.dropWhile isWs).reverse).getLast? := by
          rw [← hpre]
          exact (List.getLast?_append_of_ne_nil pre hnonnil).symm
        have hm : ((q.reverse.dropWhile isWs).reverse).getLast?
            = (q.reverse.dropWhile isWs).head? := List.getLast?_reverse _
        rw [hlast, hm] at hc
        have hh := List.head?_dropWhile_not isWs q.reverse
        rw [hc] at hh
        exact hh
    · cases hs

/-- Witness for claim C10 at the concrete question `"  hello  "` with no query
loading. -/
theorem query_submit_trimmed_witness :
    handleSubmit "  hello  ".toList false = some "hello".toList ∧
    "hello".toList = trimChars ("  hello  ".toList) ∧
    "hello".toList ≠ [] := by
  have h := (query_submit_trimmed ("  hello  ".toList) false).2 ("hello".toList) (by decide)
  exact ⟨by decide, h.1, h.2.1⟩

/-- Claim C9: `handleFileSelect` rejects every file whose name ends in neither
`.sqlite` nor `.db` with an error status whose message names the accepted
formats, without invoking `onUpload`; `onUpload` is invoked exactly for names
passing the extension check. -/
theorem file_select_extension_guard (name : String) (u : Except String Unit) :
    ((sEndsWith name ".sqlite" = false ∧ sEndsWith name ".db" = false) →
      (handleFileSelect name u).2 = false ∧
      (handleFileSelect name u).1.type = some StatusType.error ∧
      (handleFileSelect name u).1.message = acceptedFormatsMsg ∧
      ".sqlite".toList <:+: acceptedFormatsMsg.toList ∧
      ".db".toList <:+: acceptedFormatsMsg.toList) ∧
    ((handleFileSelect name u).2 = true ↔
      (sEndsWith name ".sqlite" = true ∨ sEndsWith name ".db" = true)) := by
  constructor
  · rintro ⟨h1, h2⟩
    have hcond : (!(sEndsWith name ".sqlite") && !(sEndsWith name ".db")) = true := by
      rw [h1, h2]; rfl
    unfold handleFileSelect
    simp only [hcond, if_true]
    exact ⟨trivial, trivial, trivial, by decide, by decide⟩
  · constructor
    · intro hinv
      cases h1 : sEndsWith name ".sqlite" with
      | true => exact Or.inl rfl
      | false =>
        cases h2 : sEndsWith name ".db" with
        | true => exact Or.inr rfl
        | false =>
          exfalso
          unfold handleFileSelect at hinv
          rw [h1, h2] at hinv
          simp at hinv
    · intro hor
      have hcond : (!(sEndsWith name ".sqlite") && !(sEndsWith name ".db")) = false := by
        rcases hor with h | h <;> rw [h] <;> simp
      unfold handleFileSelect
      simp only [hcond, Bool.false_eq_true, if_false]
      cases u <;> rfl

/-- Witness for claim C9: `notes.txt` is rejected with the format message and
no upload; `data.db` triggers the upload. -/
theorem file_select_extension_guard_witness :
    (handleFileSelect "notes.txt" (Except.ok ())).2 = false ∧
    (handleFileSelect "notes.txt" (Except.ok ())).1.type = some StatusType.error ∧
    (handleFileSelect "notes.txt" (Except.ok ())).1.message = acceptedFormatsMsg ∧
    (handleFileSelect "data.db" (Except.ok ())).2 = true := by
  have h := (file_select_extension_guard "notes.txt" (Except.ok ())).1 (by decide)
  exact ⟨h.1, h.2.1, h.2.2.1,
    (file_select_extension_guard "data.db" (Except.ok ())).2.mpr (Or.inr (by decide))⟩

/-- Claim C6: every per-request outbound result is a structured value
surfacing all intermediate artifacts — the semantic intent, the canonical
query, the compiled SQL text and parameters, the result rows (or none), the
elapsed milliseconds and the success flag — and the display renders each
present artifact, never only the final rows. -/
theorem outbound_result_surfaces_artifacts :
    (∀ r₁ r₂ : QueryResponse, surfaced r₁ = surfaced r₂ → r₁ = r₂) ∧
    (∀ qn i q st rows t,
      (mkQueryOutcome qn i q st rows t).success = true ∧
      (mkQueryOutcome qn i q st rows t).question = qn ∧
      (mkQueryOutcome qn i q st rows t).semanticIr = some (serializeIntent i) ∧
      (mkQueryOutcome qn i q st rows t).canonicalIr = some (serializeCanonical q) ∧
      (mkQueryOutcome qn i q st rows t).sql = some st.text ∧
      (mkQueryOutcome qn i q st rows t).parameters = some (st.params.map serializeLit) ∧
      (mkQueryOutcome qn i q st rows t).results = some rows ∧
      (mkQueryOutcome qn i q st rows t).executionTimeMs = t) ∧
    (∀ r : QueryResponse, r.success = true →
      DisplaySection.resultsCard r.results r.executionTimeMs ∈ render (some r) ∧
      (∀ j, r.semanticIr = some j → DisplaySection.semanticCard j ∈ render (some r)) ∧
      (∀ j, r.canonicalIr = some j → DisplaySection.canonicalCard j ∈ render (some r)) ∧
      (∀ sq, r.sql = some sq → DisplaySection.sqlCard sq r.parameters ∈ render (some r))) ∧
    (∀ r : QueryResponse, r.success = false →
      DisplaySection.errorCard r.error r.executionTimeMs ∈ render (some r)) := by
  refine ⟨?_, ?_, ?_, ?_⟩
  · intro r₁ r₂ h
    cases r₁
    cases r₂
    simp only [surfaced, Prod.mk.injEq] at h
    simp only [QueryResponse.mk.injEq]
    exact h
  · intro qn i q st rows t
    exact ⟨rfl, rfl, rfl, rfl, rfl, rfl, rfl, rfl⟩
  · intro r hsucc
    refine ⟨?_, ?_, ?_, ?_⟩
    · simp [render, hsucc]
    · intro j hj
      simp [render, hsucc, hj, optSection]
    · intro j hj
      simp [render, hsucc, hj, optSection]
    · intro sq hsq
      simp [render, hsucc, hsq, optSection]
  · intro r hfail
    simp [render, hfail]

/-- Witness for claim C6 at a concrete successful outcome and a concrete
failure. -/
theorem outbound_result_surfaces_artifacts_witness :
    DisplaySection.resultsCard
        (mkQueryOutcome "q" intentEx cqEx (compile cqEx) [] 5).results
        (mkQueryOutcome "q" intentEx cqEx (compile cqEx) [] 5).executionTimeMs
      ∈ render (some (mkQueryOutcome "q" intentEx cqEx (compile cqEx) [] 5)) ∧
    DisplaySection.errorCard (handleQueryFailure "q" "boom").error
        (handleQueryFailure "q" "boom").executionTimeMs
      ∈ render (some (handleQueryFailure "q" "boom")) :=
  ⟨(outbound_result_surfaces_artifacts.2.2.1
      (mkQueryOutcome "q" intentEx cqEx (compile cqEx) [] 5) rfl).1,
    outbound_result_surfaces_artifacts.2.2.2 (handleQueryFailure "q" "boom") rfl⟩

/-- Claim C7 counterexample: a transport failure caught in the frontend (for
instance the axios timeout firing after 60000 ms) is reported with
`execution_time_ms` equal to `0`, not the elapsed time up to the failure
point. -/
theorem transport_failure_time_counterexample :
    (handleQueryFailure "q" "timeout of 60000ms exceeded").executionTimeMs = 0 ∧
    (handleQueryFailure "q" "timeout of 60000ms exceeded").executionTimeMs ≠ apiTimeoutMs := by
  exact ⟨rfl, by decide⟩

/-- Claim C7 (amended): backend error outcomes carry the elapsed time measured
up to the failure point in `execution_time_ms`, while transport failures
caught by the frontend `catch` branch are reported with `execution_time_ms`
hard-coded to `0`. -/
theorem error_results_elapsed_time :
    (∀ qn msg t, (mkErrorOutcome qn msg t).executionTimeMs = t ∧
      (mkErrorOutcome qn msg t).success = false ∧
      (mkErrorOutcome qn msg t).error = some msg) ∧
    (∀ qn msg, (handleQueryFailure qn msg).executionTimeMs = 0 ∧
      (handleQueryFailure qn msg).success = false ∧
      (handleQueryFailure qn msg).error = some msg) :=
  ⟨fun _ _ _ => ⟨rfl, rfl, rfl⟩, fun _ _ => ⟨rfl, rfl, rfl⟩⟩

/-- Claim C8: the request transport timeout and the statement execution
timeout are hard bounds on the order of tens of seconds; execution beyond the
bound yields the distinct timeout error, the produced rows are discarded, and
the timeout is distinguishable from a generic storage error. -/
theorem execution_timeout_bound :
    (10000 ≤ apiTimeoutMs ∧ apiTimeoutMs < 100000) ∧
    (10000 ≤ execTimeoutMs ∧ execTimeoutMs < 100000) ∧
    (∀ d rows, execTimeoutMs < d → runStatement d rows = ExecResult.timeout) ∧
    (∀ d rows rows2, execTimeoutMs < d → runStatement d rows ≠ ExecResult.rows rows2) ∧
    (∀ msg, (ExecResult.timeout : ExecResult) ≠ ExecResult.storageError msg) := by
  refine ⟨⟨by decide, by decide⟩, ⟨by decide, by decide⟩, ?_, ?_, ?_⟩
  · intro d rows hd
    unfold runStatement
    simp [hd]
  · intro d rows rows2 hd habs
    have h1 : runStatement d rows = ExecResult.timeout := by
      unfold runStatement
      simp [hd]
    rw [h1] at habs
    cases habs
  · intro msg habs
    cases habs

/-- Witness for claim C8: a statement that takes 30001 ms times out and its
rows are not returned. -/
theorem execution_timeout_bound_witness :
    runStatement 30001 [[("a", "1")]] = ExecResult.timeout ∧
    runStatement 30001 [[("a", "1")]] ≠ ExecResult.rows [[("a", "1")]] :=
  ⟨execution_timeout_bound.2.2.1 30001 [[("a", "1")]] (by decide),
    execution_timeout_bound.2.2.2.1 30001 [[("a", "1")]] [[("a", "1")]] (by decide)⟩

/-- Claim C1 (amended): for every CanonicalQuery accepted by the Query
Validator against a schema whose identifiers are safe (lowercase letters,
digits and underscores only), the compiled SQL text contains exactly one
`SELECT` keyword and zero semicolons, the length of the ordered parameter
list equals the number of positional placeholders, and the text does not
depend on any literal value of the query (so no literal from the Semantic
Intent is ever copied into it). -/
theorem compiled_statement_invariants (q : CanonicalQuery) (s : SchemaCatalog)
    (hs : safeSchema s = true) (hv : validate q s = Except.ok q) :
    countSub "SELECT".toList (compile q).text.data = 1 ∧
    List.count ';' (compile q).text.data = 0 ∧
    List.count '?' (compile q).text.data = (compile q).params.length ∧
    (compile (eraseValues q)).text = (compile q).text := by
  rcases validate_safe_idents q s hs q hv with ⟨htab, hfs, htc, hproj⟩
  have htext : (compile q).text.data = sqlChars q := rfl
  refine ⟨?_, ?_, ?_, ?_⟩
  · rw [htext]
    exact countSub_select_sqlChars q htab hfs htc hproj
  · rw [htext]
    exact List.count_eq_zero.mpr (semi_not_mem_sqlChars q htab hfs htc hproj)
  · rw [htext, compile_params_length q]
    exact count_qm_sqlChars q htab hfs htc hproj
  · show String.mk (sqlChars (eraseValues q)) = String.mk (sqlChars q)
    rw [sqlChars_erase]

/-- Witness for claim C1 at the concrete accepted query `cqEx` over
`schemaEx`. -/
theorem compiled_statement_invariants_witness :
    safeSchema schemaEx = true ∧
    validate cqEx schemaEx = Except.ok cqEx ∧
    (countSub "SELECT".toList (compile cqEx).text.data = 1 ∧
     List.count ';' (compile cqEx).text.data = 0 ∧
     List.count '?' (compile cqEx).text.data = (compile cqEx).params.length ∧
     (compile (eraseValues cqEx)).text = (compile cqEx).text) :=
  ⟨by decide, by decide,
    compiled_statement_invariants cqEx schemaEx (by decide) (by decide)⟩

/-- Claim C1 counterexample: over a schema whose only table is named `t;x`
(a name SQLite allows), the validator accepts the listing query but the
compiled text contains a semicolon, so the claim as stated (zero semicolons
for every validator-accepted query) is false. -/
theorem compiled_semicolon_counterexample :
    validate cqSemi schemaSemi = Except.ok cqSemi ∧
    (compile cqSemi).text = "SELECT * FROM \"t;x\"" ∧
    List.count ';' (compile cqSemi).text.data ≠ 0 := by
  refine ⟨by decide, by decide, by decide⟩

/-- Claim C2: the pipeline is deterministic — running resolution and
compilation twice on identical inputs yields identical results — and the
resolved filter list is exactly the table's default filters (in rule-set
order) followed by the intent filters (in intent order, as the `Forall₂`
correspondence shows), with the time-range bounds compiled last in the
parameter list. -/
theorem resolve_compile_deterministic (i : SemanticIntent) (r : BusinessRuleSet)
    (s : SchemaCatalog) (q : CanonicalQuery) (h : resolve i r s = Except.ok q) :
    resolve i r s = Except.ok q ∧
    compile q = compile q ∧
    (compile q).params = q.filters.map CompFilter.value ++ timeBoundsList q.timeFilter ∧
    ∃ ifs, resolveFilters (colsOf s q.table) i.filters = Except.ok ifs ∧
      q.filters = (defaultsFor r q.table).map defaultToC ++ ifs ∧
      List.Forall₂ (fun (raw : RawFilter) (c : CompFilter) =>
        c.value = raw.value ∧ parseOp raw.op = some c.op ∧
        ∃ col, findCol (colsOf s q.table) raw.field = some col ∧ c.column = col.name)
        i.filters ifs := by
  rcases resolve_ok_inv i r s q h with ⟨mr, tb, aggKw, ifs, tf, hmr, htb, hagg, hifs, htf, hq⟩
  have htbq : q.table = tb := by rw [hq]
  refine ⟨h, rfl, compile_params_eq q, ifs, ?_, ?_, ?_⟩
  · rw [htbq]
    exact hifs
  · rw [hq]
  · rw [htbq]
    exact resolveFilters_ok_rel _ _ _ hifs

/-- Witness for claim C2 at the concrete inputs of the spec scenario. -/
theorem resolve_compile_deterministic_witness :
    resolve intentEx rulesEx schemaEx = Except.ok cqEx ∧
    ∃ ifs, resolveFilters (colsOf schemaEx cqEx.table) intentEx.filters = Except.ok ifs ∧
      cqEx.filters = (defaultsFor rulesEx cqEx.table).map defaultToC ++ ifs ∧
      List.Forall₂ (fun (raw : RawFilter) (c : CompFilter) =>
        c.value = raw.value ∧ parseOp raw.op = some c.op ∧
        ∃ col, findCol (colsOf schemaEx cqEx.table) raw.field = some col ∧
          c.column = col.name)
        intentEx.filters ifs :=
  ⟨by decide,
    (resolve_compile_deterministic intentEx rulesEx schemaEx cqEx (by decide)).2.2.2⟩

/-- Claim C3 counterexample: when both the metric term and the entity term
are unknown, resolution reports `unknownMetric`, not `unknownEntity`, so the
claim as stated (every intent whose entity term is absent from the entity
mapping yields `unknownEntity`) is false. -/
theorem unknown_entity_counterexample :
    intentBoth.entity = some "e" ∧
    lookupKey rulesEmpty.entityMap "e" = none ∧
    resolve intentBoth rulesEmpty [] ≠ Except.error (ResolutionError.unknownEntity "e") ∧
    resolve intentBoth rulesEmpty [] = Except.error (ResolutionError.unknownMetric "m") := by
  refine ⟨rfl, rfl, by decide, by decide⟩

/-- Claim C3 (amended): a present-but-unknown metric term resolves to
`unknownMetric`; a present-but-unknown entity term resolves to
`unknownEntity` provided the metric term is absent or known; in every such
situation resolution fails and never falls through to any default table. -/
theorem unknown_terms_resolution (i : SemanticIntent) (r : BusinessRuleSet)
    (s : SchemaCatalog) :
    (∀ m, i.metric = some m → lookupKey r.metricMap m = none →
      resolve i r s = Except.error (ResolutionError.unknownMetric m)) ∧
    (∀ e, i.entity = some e → lookupKey r.entityMap e = none →
      (i.metric = none ∨ ∃ m mr, i.metric = some m ∧ lookupKey r.metricMap m = some mr) →
      resolve i r s = Except.error (ResolutionError.unknownEntity e)) ∧
    (∀ q : CanonicalQuery,
      ((∃ m, i.metric = some m ∧ lookupKey r.metricMap m = none) ∨
       (∃ e, i.entity = some e ∧ lookupKey r.entityMap e = none)) →
      resolve i r s ≠ Except.ok q) := by
  have hA : ∀ m, i.metric = some m → lookupKey r.metricMap m = none →
      resolve i r s = Except.error (ResolutionError.unknownMetric m) := by
    intro m hm hlk
    have h1 : resolveMetric i r = Except.error (ResolutionError.unknownMetric m) := by
      simp only [resolveMetric, hm, hlk]
    simp only [resolve, h1]
  have hB : ∀ e, i.entity = some e → lookupKey r.entityMap e = none →
      (i.metric = none ∨ ∃ m mr, i.metric = some m ∧ lookupKey r.metricMap m = some mr) →
      resolve i r s = Except.error (ResolutionError.unknownEntity e) := by
    intro e he helk hmet
    have h2 : ∀ mr0, resolveTable i r mr0 = Except.error (ResolutionError.unknownEntity e) := by
      intro mr0
      simp only [resolveTable, he, helk]
    rcases hmet with hm | ⟨m, mr, hm, hlk⟩
    · have h1 : resolveMetric i r = Except.ok none := by
        simp only [resolveMetric, hm]
      simp only [resolve, h1, h2]
    · have h1 : resolveMetric i r = Except.ok (some mr) := by
        simp only [resolveMetric, hm, hlk]
      simp only [resolve, h1, h2]
  refine ⟨hA, hB, ?_⟩
  intro q hcase habs
  rcases hcase with ⟨m, hm, hlk⟩ | ⟨e, he, helk⟩
  · rw [hA m hm hlk] at habs
    cases habs
  · cases hmo : i.metric with
    | none =>
      rw [hB e he helk (Or.inl hmo)] at habs
      cases habs
    | some m =>
      cases hlkm : lookupKey r.metricMap m with
      | none =>
        rw [hA m hmo hlkm] at habs
        cases habs
      | some mr =>
        rw [hB e he helk (Or.inr ⟨m, mr, hmo, hlkm⟩)] at habs
        cases habs

/-- Witness for claim C3 at the concrete unknown-metric intent. -/
theorem unknown_terms_resolution_witness :
    resolve intentBoth rulesEmpty [] = Except.error (ResolutionError.unknownMetric "m") :=
  (unknown_terms_resolution intentBoth rulesEmpty []).1 "m" (by decide) (by decide)

/-- Claim C4: for every table declaring default filters, every compiled
statement for a resolved query over that table contains each default filter's
condition inside its `WHERE` clause text, with the filter's value bound in
the parameter list — even when the intent supplies no filters of its own. -/
theorem default_filters_in_where (i : SemanticIntent) (r : BusinessRuleSet)
    (s : SchemaCatalog) (q : CanonicalQuery) (h : resolve i r s = Except.ok q) :
    ∀ d ∈ defaultsFor r q.table,
      condChars (defaultToC d) <:+: (compile q).text.data ∧
      (defaultToC d).value ∈ (compile q).params := by
  rcases resolve_ok_inv i r s q h with ⟨mr, tb, aggKw, ifs, tf, hmr, htb, hagg, hifs, htf, hq⟩
  have hfilters : q.filters = (defaultsFor r q.table).map defaultToC ++ ifs := by
    rw [hq]
  intro d hd
  have hdq : defaultToC d ∈ q.filters := by
    rw [hfilters]
    exact List.mem_append_left _ (List.mem_map_of_mem _ hd)
  have hpc : (condChars (defaultToC d), [(defaultToC d).value]) ∈ piecesOf q := by
    unfold piecesOf
    exact List.mem_append_left _ (List.mem_map.mpr ⟨defaultToC d, hdq, rfl⟩)
  have hne : (piecesOf q).isEmpty = false := by
    cases hpq : piecesOf q with
    | nil => rw [hpq] at hpc; cases hpc
    | cons a b => rfl
  have hjoin : condChars (defaultToC d) <:+: joinAnd ((piecesOf q).map Prod.fst) :=
    infix_joinAnd _ _ (List.mem_map.mpr ⟨_, hpc, rfl⟩)
  constructor
  · have htext : (compile q).text.data = sqlChars q := rfl
    rw [htext, sqlChars_eq]
    simp only [hne, Bool.false_eq_true, if_false]
    rcases hjoin with ⟨a, b, hab⟩
    refine ⟨"SELECT ".toList ++ (projChars q.projection ++ (" FROM ".toList
      ++ (quoteChars q.table ++ (" WHERE ".toList ++ a)))), b, ?_⟩
    rw [← hab]
    simp
  · rw [compile_params_eq q]
    apply List.mem_append_left
    exact List.mem_map.mpr ⟨defaultToC d, hdq, rfl⟩

/-- Witness for claim C4 at the spec scenario: the default filter
`status = 'completed'` of `orders` appears in the compiled text and its value
in the parameter list, although `intentEx` supplies no filters. -/
theorem default_filters_in_where_witness :
    intentEx.filters = [] ∧
    DefaultFilter.mk "status" FilterOp.eq (Lit.strL "completed") "only completed orders"
      ∈ defaultsFor rulesEx cqEx.table ∧
    condChars (defaultToC (DefaultFilter.mk "status" FilterOp.eq (Lit.strL "completed")
      "only completed orders")) <:+: (compile cqEx).text.data ∧
    (defaultToC (DefaultFilter.mk "status" FilterOp.eq (Lit.strL "completed")
      "only completed orders")).value ∈ (compile cqEx).params :=
  ⟨rfl, by decide,
    default_filters_in_where intentEx rulesEx schemaEx cqEx (by decide) _ (by decide)⟩

/-- Claim C5: the SQL Compiler never interpolates a literal value into the
text — two queries that agree on everything except their literal values
compile to identical text — and the ordered parameter list is exactly the
comparison-filter values in the query's filter order followed by the
time-range lower bound and then the upper bound when present. -/
theorem compile_no_literal_interpolation (q1 q2 : CanonicalQuery)
    (h : eraseValues q1 = eraseValues q2) :
    (compile q1).text = (compile q2).text ∧
    (compile q1).params = q1.filters.map CompFilter.value ++ timeBoundsList q1.timeFilter := by
  constructor
  · have e1 : (compile q1).text = (compile (eraseValues q1)).text := by
      show String.mk (sqlChars q1) = String.mk (sqlChars (eraseValues q1))
      rw [sqlChars_erase]
    have e2 : (compile q2).text = (compile (eraseValues q2)).text := by
      show String.mk (sqlChars q2) = String.mk (sqlChars (eraseValues q2))
      rw [sqlChars_erase]
    rw [e1, e2, h]
  · exact compile_params_eq q1

/-- Witness for claim C5: changing the filter value and the time bounds of
`cqEx` leaves the compiled text unchanged, and the parameters of `cqEx` are
its filter value followed by the two time bounds. -/
theorem compile_no_literal_interpolation_witness :
    (compile cqEx).text = (compile (CanonicalQuery.mk "orders"
      (Projection.agg Agg.sum "amount")
      [CompFilter.mk "status" FilterOp.eq (Lit.strL "pending")]
      (some (CTime.mk "created_at" (Lit.strL "1999-01-01")
        (Lit.strL "1999-02-01"))))).text ∧
    (compile cqEx).params
      = cqEx.filters.map CompFilter.value ++ timeBoundsList cqEx.timeFilter :=
  ⟨(compile_no_literal_interpolation cqEx (CanonicalQuery.mk "orders"
      (Projection.agg Agg.sum "amount")
      [CompFilter.mk "status" FilterOp.eq (Lit.strL "pending")]
      (some (CTime.mk "created_at" (Lit.strL "1999-01-01")
        (Lit.strL "1999-02-01")))) (by decide)).1,
    (compile_no_literal_interpolation cqEx cqEx rfl).2⟩
